import Mathlib

/-!
# Verification of the LTA calculation engine (src/app.py)

Shallow embedding of the elevator traffic-analysis engine:
`travel_time`, `expected_stops_and_highest`, `run_lta_logic`.

Modelling conventions:
* Python floats are modelled as real numbers `ℝ`.
* Integer-valued inputs coming from the UI (`target_pop`, `num_elevators`,
  `zone_start_floor`, `num_floors`) are modelled as `ℤ` and cast into `ℝ`
  where the Python code mixes them into float arithmetic.
* Python code that can raise `ZeroDivisionError` is modelled with `Option`:
  `none` stands for a raised exception.  Python `x ** n` for a float `x` and
  an int `n` raises exactly when `x = 0` and `n < 0`; float division `x / y`
  raises exactly when `y = 0`.  These are the only fallible operations the
  engine reaches, and each is guarded explicitly below at the spot where the
  source performs the operation.
* `round(x, 2)` is modelled as rounding to the nearest multiple of `1/100`
  (`round2` below); the tie-breaking convention of Python floats is
  immaterial to every claim considered here.
-/

noncomputable section

open BigOperators

/-- Python `x ** n` for a float `x` and int exponent `n`:
`ZeroDivisionError` (modelled `none`) iff `x = 0 ∧ n < 0`, otherwise `x ^ n`. -/
def ppow (x : ℝ) (n : ℤ) : Option ℝ :=
  if x = 0 ∧ n < 0 then none else some (x ^ n)

/-- The sum `sum(1 - (1 - prob_floor[i])**total_passengers for i in range(n))`
from `expected_stops_and_highest` (src/app.py line 61), over the list of
per-floor probabilities. -/
def sSum : List ℝ → ℤ → Option ℝ
  | [], _ => some 0
  | p :: tl, P =>
    (ppow (1 - p) P).bind fun t => (sSum tl P).map fun rest => (1 - t) + rest

/-- The accumulation loop for the highest reversal floor
(src/app.py lines 62-66): `cum_prob += prob_floor[i];
h_prob += 1 - (cum_prob - prob_floor[i])**total_passengers`. -/
def hSum : List ℝ → ℤ → ℝ → ℝ → Option ℝ
  | [], _, _, acc => some acc
  | p :: tl, P, cum, acc =>
    (ppow ((cum + p) - p) P).bind fun t => hSum tl P (cum + p) (acc + (1 - t))

/-- `expected_stops_and_highest(pop_per_floor, total_passengers)`
(src/app.py lines 56-67).  Returns the pair `(s_prob, h_prob)`;
`none` models a raised `ZeroDivisionError`. -/
def expected_stops_and_highest (pop_per_floor : List ℝ) (total_passengers : ℤ) :
    Option (ℝ × ℝ) :=
  if total_passengers = 0 then some (0, 0)
  else
    let prob_floor := pop_per_floor.map (fun pop => pop / (total_passengers : ℝ))
    (sSum prob_floor total_passengers).bind fun s =>
      (hSum prob_floor total_passengers 0 0).map fun h => (s, h)

/-- `travel_time(distance, speed, accel, jerk, use_accel)`
(src/app.py lines 43-53).  `none` models a raised `ZeroDivisionError`
(`accel = 0` in the `d_acc` computation, or `speed = 0` in the cruise-time
division of the trapezoidal branch).  The `jerk` argument is accepted and,
as in the source, unused. -/
def travel_time (distance speed accel jerk : ℝ) (use_accel : Bool) : Option ℝ :=
  if use_accel = false ∨ distance ≤ 0 then
    some (if 0 < speed then distance / speed else 0)
  else if accel = 0 then none
  else
    let d_acc := speed ^ 2 / (2 * accel)
    if distance < 2 * d_acc then some (2 * Real.sqrt (distance / accel))
    else if speed = 0 then none
    else some (2 * (speed / accel) + (distance - 2 * d_acc) / speed)

/-- The `inputs` dict consumed by `run_lta_logic` (src/app.py lines 211-227). -/
structure Inputs where
  target_pop : ℤ
  num_floors : ℤ
  speed : ℝ
  car_capacity : ℝ
  floor_height : ℝ
  passenger_time : ℝ
  t_open : ℝ
  t_dwell : ℝ
  t_close : ℝ
  zone_start_floor : ℤ
  use_accel_model : Bool
  acceleration : ℝ
  jerk : ℝ
  num_elevators : ℤ
  pop_per_floor : List ℝ

/-- The result dict of `run_lta_logic`; the Python key `"HC"` holds the
handling-capacity percentage. -/
structure LTAResult where
  RTT : ℝ
  Interval : ℝ
  AWT : ℝ
  HC : ℝ
  HC_persons : ℝ

/-- The body of `run_lta_logic` (src/app.py lines 70-107) before the final
presentation rounding of the returned dict. -/
def run_lta_raw (i : Inputs) : Option LTAResult :=
  (expected_stops_and_highest i.pop_per_floor i.target_pop).bind fun sh =>
    let s_prob := sh.1
    let h_prob := sh.2
    if s_prob = 0 then some ⟨0, 0, 0, 0, 0⟩
    else
      let door_cycle := i.t_open + i.t_dwell + i.t_close
      let travel_dist := 2 * (h_prob - (i.zone_start_floor : ℝ)) * i.floor_height
      (travel_time travel_dist i.speed i.acceleration i.jerk i.use_accel_model).bind
        fun travel_t =>
          let total_stops := s_prob + 1
          let passenger_time := 2 * (i.target_pop : ℝ) * i.passenger_time
          let rtt := travel_t + total_stops * door_cycle + passenger_time
          if (i.num_elevators : ℝ) = 0 then none
          else
            let interval := rtt / (i.num_elevators : ℝ)
            let awt := interval * 0.7
            if interval = 0 then none
            else
              let hc_persons := (i.car_capacity * (i.num_elevators : ℝ) * 300) / interval
              let hc_percent :=
                if 0 < i.target_pop then (hc_persons / (i.target_pop : ℝ)) * 100 else 0
              some ⟨rtt, interval, awt, hc_percent, hc_persons⟩

/-- Python `round(x, 2)`: rounding to the nearest multiple of `1/100`. -/
def round2 (x : ℝ) : ℝ := ((round (100 * x) : ℤ) : ℝ) / 100

/-- `run_lta_logic(inputs)` (src/app.py lines 70-107): the raw computation
followed by the 2-decimal presentation rounding applied in the returned dict. -/
def run_lta_logic (i : Inputs) : Option LTAResult :=
  (run_lta_raw i).map
    (fun r => ⟨round2 r.RTT, round2 r.Interval, round2 r.AWT, round2 r.HC, round2 r.HC_persons⟩)

/-- Modelled from the spec: the legacy door cycle of the legacy RTT variant
(spec section 4.4), which belongs to the repository's other engine variants
and is absent from src/app.py.  It folds load and unload times into the door
cycle. -/
def legacy_door_cycle (t_open t_close t_dwell t_load t_unload : ℝ) : ℝ :=
  t_open + t_close + t_dwell + t_load + t_unload

/-- Modelled from the spec: the legacy round-trip-time formula variant
(spec section 4.4, constant floor height, no acceleration), absent from
src/app.py (only the kinematic variant is implemented there):
`RTT = 2·H·(floor_height/v) + (S+1)·door_cycle + 2·P·load_time + 2·express_jump`. -/
def legacy_rtt (h s floor_height v t_open t_close t_dwell t_load t_unload : ℝ)
    (p : ℤ) (load_time express_jump : ℝ) : ℝ :=
  2 * h * (floor_height / v)
    + (s + 1) * legacy_door_cycle t_open t_close t_dwell t_load t_unload
    + 2 * (p : ℝ) * load_time + 2 * express_jump

/-! ## Helper lemmas: closed forms of the occupancy model -/

lemma ppow_of_pos (x : ℝ) (P : ℤ) (hP : 0 < P) : ppow x P = some (x ^ P) := by
  unfold ppow
  rw [if_neg]
  rintro ⟨-, h⟩
  omega

lemma sSum_of_pos (ps : List ℝ) (P : ℤ) (hP : 0 < P) :
    sSum ps P = some (∑ i ∈ Finset.range ps.length, (1 - (1 - ps.getD i 0) ^ P)) := by
  induction ps with
  | nil => simp [sSum]
  | cons p tl ih =>
    simp only [sSum, ppow_of_pos _ _ hP, ih, Option.some_bind, Option.map_some']
    simp only [List.length_cons, Finset.sum_range_succ', List.getD_cons_succ,
      List.getD_cons_zero]
    congr 1
    ring

lemma hSum_of_pos (ps : List ℝ) (P : ℤ) (hP : 0 < P) :
    ∀ cum acc, hSum ps P cum acc =
      some (acc + ∑ i ∈ Finset.range ps.length, (1 - (cum + (ps.take i).sum) ^ P)) := by
  induction ps with
  | nil =>
    intro cum acc
    simp [hSum]
  | cons p tl ih =>
    intro cum acc
    simp only [hSum, ppow_of_pos _ _ hP, Option.some_bind, ih]
    congr 1
    rw [List.length_cons, Finset.sum_range_succ']
    simp only [List.take_succ_cons, List.sum_cons, List.take_zero, List.sum_nil,
      add_zero, add_sub_cancel_right]
    have h3 : ∀ x : ℝ, cum + (p + x) = (cum + p) + x := fun x => by ring
    simp only [h3]
    ring

lemma getD_map_div (ws : List ℝ) (c : ℝ) (i : ℕ) :
    (ws.map (fun w => w / c)).getD i 0 = ws.getD i 0 / c := by
  have h := @List.getD_map ℝ ℝ ws 0 i (fun w => w / c)
  simpa using h

lemma sum_map_div (ws : List ℝ) (c : ℝ) :
    (ws.map (fun w => w / c)).sum = ws.sum / c := by
  induction ws with
  | nil => simp
  | cons w tl ih => simp [ih, add_div]

/-- Closed form of `expected_stops_and_highest` for a positive passenger
count: the pair of sums from src/app.py lines 60-67, with the cumulative
probability `C_i - p_i` written as the prefix sum of the weights divided by
the population. -/
lemma expected_eq (ws : List ℝ) (P : ℤ) (hP : 0 < P) :
    expected_stops_and_highest ws P =
      some (∑ i ∈ Finset.range ws.length, (1 - (1 - ws.getD i 0 / (P : ℝ)) ^ P),
            ∑ i ∈ Finset.range ws.length, (1 - ((ws.take i).sum / (P : ℝ)) ^ P)) := by
  unfold expected_stops_and_highest
  rw [if_neg (by omega : ¬ P = 0)]
  simp only [sSum_of_pos _ _ hP, hSum_of_pos _ _ hP, Option.some_bind, Option.map_some']
  simp only [List.length_map, zero_add]
  congr 2
  · exact Finset.sum_congr rfl fun i _ => by rw [getD_map_div]
  · refine Finset.sum_congr rfl fun i _ => ?_
    rw [← List.map_take, sum_map_div]

/-! ## Helper lemmas: rounding, powers on the unit interval, list sums -/

lemma round2_mono {x y : ℝ} (h : x ≤ y) : round2 x ≤ round2 y := by
  unfold round2
  have h1 : round (100 * x) ≤ round (100 * y) := by
    rw [round_eq, round_eq]
    exact Int.floor_mono (by linarith)
  have h2 : ((round (100 * x) : ℤ) : ℝ) ≤ ((round (100 * y) : ℤ) : ℝ) := Int.cast_le.mpr h1
  linarith

lemma round2_of_mul_eq (x : ℝ) (n : ℤ) (hx : 100 * x = (n : ℝ)) : round2 x = x := by
  unfold round2
  rw [hx, round_intCast]
  linarith

lemma zpow_unit_interval (y : ℝ) (P : ℤ) (hP : 0 < P) (h0 : 0 ≤ y) (h1 : y ≤ 1) :
    0 ≤ y ^ P ∧ y ^ P ≤ 1 := by
  obtain ⟨m, rfl⟩ : ∃ m : ℕ, P = (m : ℤ) := ⟨P.toNat, (Int.toNat_of_nonneg hP.le).symm⟩
  rw [zpow_natCast]
  exact ⟨pow_nonneg h0 m, pow_le_one₀ h0 h1⟩

lemma take_sum_le (ws : List ℝ) (k : ℕ) (hnn : ∀ w ∈ ws, 0 ≤ w) :
    (ws.take k).sum ≤ ws.sum := by
  conv_rhs => rw [← List.take_append_drop k ws]
  rw [List.sum_append]
  have hdrop : 0 ≤ (ws.drop k).sum :=
    List.sum_nonneg fun w hw => hnn w (List.drop_subset k ws hw)
  linarith

lemma take_sum_nonneg (ws : List ℝ) (k : ℕ) (hnn : ∀ w ∈ ws, 0 ≤ w) :
    0 ≤ (ws.take k).sum :=
  List.sum_nonneg fun w hw => hnn w (List.take_subset k ws hw)

/-- For a negative passenger count and a nonempty floor list the Python code
raises `ZeroDivisionError`: the first term of the highest-reversal loop
computes `0.0 ** total_passengers` with a negative exponent. -/
lemma expected_neg_none (w : ℝ) (tl : List ℝ) (P : ℤ) (hP : P < 0) :
    expected_stops_and_highest (w :: tl) P = none := by
  unfold expected_stops_and_highest
  rw [if_neg (by omega)]
  have hh : hSum ((w :: tl).map (fun pop => pop / (P : ℝ))) P 0 0 = none := by
    simp only [List.map_cons, hSum, zero_add, sub_self]
    rw [ppow, if_pos ⟨rfl, hP⟩]
    rfl
  simp only [hh, Option.map_none']
  cases hs : sSum ((w :: tl).map (fun pop => pop / (P : ℝ))) P <;> rfl

/-- If `expected_stops_and_highest` succeeds with a nonzero number of stops,
the passenger count is positive. -/
lemma pos_of_expected_some {ws : List ℝ} {P : ℤ} {s h : ℝ}
    (hsome : expected_stops_and_highest ws P = some (s, h)) (hs : s ≠ 0) : 0 < P := by
  rcases lt_trichotomy P 0 with hlt | rfl | hgt
  · cases ws with
    | nil =>
      unfold expected_stops_and_highest at hsome
      rw [if_neg (by omega)] at hsome
      simp only [List.map_nil, sSum, hSum, Option.some_bind, Option.map_some'] at hsome
      have h2 := Option.some_inj.mp hsome
      rw [Prod.mk.injEq] at h2
      exact absurd h2.1.symm hs
    | cons w tl => rw [expected_neg_none w tl P hlt] at hsome; cases hsome
  · unfold expected_stops_and_highest at hsome
    rw [if_pos rfl] at hsome
    have h2 := Option.some_inj.mp hsome
    rw [Prod.mk.injEq] at h2
    exact absurd h2.1.symm hs
  · exact hgt

/-- If the expected number of stops is nonzero and every floor weight lies in
`[0, P]`, the expected number of stops is nonnegative. -/
lemma s_nonneg_of_weights {ws : List ℝ} {P : ℤ} {s h : ℝ}
    (hsome : expected_stops_and_highest ws P = some (s, h))
    (hs : s ≠ 0) (hw : ∀ w ∈ ws, 0 ≤ w ∧ w ≤ (P : ℝ)) : 0 ≤ s := by
  have hP : 0 < P := pos_of_expected_some hsome hs
  have hPr : (0 : ℝ) < (P : ℝ) := by exact_mod_cast hP
  rw [expected_eq ws P hP] at hsome
  have h2 := Option.some_inj.mp hsome
  rw [Prod.mk.injEq] at h2
  obtain ⟨hs', -⟩ := h2
  subst hs'
  refine Finset.sum_nonneg fun k hk => ?_
  have hk' : k < ws.length := Finset.mem_range.mp hk
  have hmem : ws.getD k 0 ∈ ws := by
    rw [List.getD_eq_getElem ws 0 hk']
    exact List.getElem_mem hk'
  obtain ⟨h0, h1⟩ := hw _ hmem
  have hy0 : 0 ≤ 1 - ws.getD k 0 / (P : ℝ) := by
    have : ws.getD k 0 / (P : ℝ) ≤ 1 := (div_le_one hPr).mpr h1
    linarith
  have hy1 : 1 - ws.getD k 0 / (P : ℝ) ≤ 1 := by
    have : 0 ≤ ws.getD k 0 / (P : ℝ) := div_nonneg h0 hPr.le
    linarith
  have := (zpow_unit_interval _ P hP hy0 hy1).2
  linarith

/-- Inversion principle for a successful run of the raw engine: either the
degenerate all-zero branch was taken, or every intermediate value is exposed. -/
lemma run_lta_raw_elim {i : Inputs} {r : LTAResult} (hr : run_lta_raw i = some r) :
    ∃ s h, expected_stops_and_highest i.pop_per_floor i.target_pop = some (s, h) ∧
      ((s = 0 ∧ r = ⟨0, 0, 0, 0, 0⟩) ∨
        (s ≠ 0 ∧ ∃ t rtt,
          travel_time (2 * (h - (i.zone_start_floor : ℝ)) * i.floor_height) i.speed
              i.acceleration i.jerk i.use_accel_model = some t ∧
          rtt = t + (s + 1) * (i.t_open + i.t_dwell + i.t_close)
              + 2 * (i.target_pop : ℝ) * i.passenger_time ∧
          (i.num_elevators : ℝ) ≠ 0 ∧ rtt / (i.num_elevators : ℝ) ≠ 0 ∧
          r = ⟨rtt, rtt / (i.num_elevators : ℝ), rtt / (i.num_elevators : ℝ) * 0.7,
               (if 0 < i.target_pop then
                  (i.car_capacity * (i.num_elevators : ℝ) * 300)
                      / (rtt / (i.num_elevators : ℝ)) / (i.target_pop : ℝ) * 100
                else 0),
               (i.car_capacity * (i.num_elevators : ℝ) * 300)
                   / (rtt / (i.num_elevators : ℝ))⟩)) := by
  unfold run_lta_raw at hr
  cases hocc : expected_stops_and_highest i.pop_per_floor i.target_pop with
  | none => rw [hocc] at hr; cases hr
  | some sh =>
    rw [hocc] at hr
    simp only [Option.some_bind] at hr
    refine ⟨sh.1, sh.2, rfl, ?_⟩
    by_cases hs : sh.1 = 0
    · rw [if_pos hs] at hr
      exact Or.inl ⟨hs, (Option.some_inj.mp hr).symm⟩
    · rw [if_neg hs] at hr
      cases htr : travel_time (2 * (sh.2 - (i.zone_start_floor : ℝ)) * i.floor_height) i.speed
          i.acceleration i.jerk i.use_accel_model with
      | none => rw [htr] at hr; cases hr
      | some t =>
        rw [htr] at hr
        simp only [Option.some_bind] at hr
        by_cases hne : (i.num_elevators : ℝ) = 0
        · rw [if_pos hne] at hr; cases hr
        · rw [if_neg hne] at hr
          by_cases hint : (t + (sh.1 + 1) * (i.t_open + i.t_dwell + i.t_close)
              + 2 * (i.target_pop : ℝ) * i.passenger_time) / (i.num_elevators : ℝ) = 0
          · rw [if_pos hint] at hr; cases hr
          · rw [if_neg hint] at hr
            exact Or.inr ⟨hs, t,
              t + (sh.1 + 1) * (i.t_open + i.t_dwell + i.t_close)
                + 2 * (i.target_pop : ℝ) * i.passenger_time,
              rfl, rfl, hne, hint, (Option.some_inj.mp hr).symm⟩

/-! ## Claim theorems -/

/-- C3: for every distance `d ≥ 0` and speed `v` (with the spec's input
contract `a > 0`, `v > 0` when kinematic mode is enabled): with kinematic
mode disabled or `d ≤ 0` the travel time is `d / v` (and `0` when `v ≤ 0`);
with kinematic mode enabled and `d > 0`, letting `d_acc = v² / (2a)`, the
travel time is `2·√(d/a)` when `d < 2·d_acc` and `2·(v/a) + (d - 2·d_acc)/v`
otherwise. -/
theorem travel_time_formula (d v a j : ℝ) (ua : Bool) (hd : 0 ≤ d)
    (hk : ua = true → 0 < a ∧ 0 < v) :
    travel_time d v a j ua =
      some (if ua = false ∨ d ≤ 0 then (if 0 < v then d / v else 0)
            else if d < 2 * (v ^ 2 / (2 * a)) then 2 * Real.sqrt (d / a)
            else 2 * (v / a) + (d - 2 * (v ^ 2 / (2 * a))) / v) := by
  simp only [travel_time]
  by_cases h1 : ua = false ∨ d ≤ 0
  · rw [if_pos h1, if_pos h1]
  · have hua : ua = true := by revert h1; cases ua <;> simp
    obtain ⟨haz, hvz⟩ := hk hua
    rw [if_neg h1, if_neg h1, if_neg haz.ne']
    by_cases h2 : d < 2 * (v ^ 2 / (2 * a))
    · rw [if_pos h2, if_pos h2]
    · rw [if_neg h2, if_neg h2, if_neg hvz.ne']

/-- C3 witness: a concrete trapezoidal-profile instance,
`travel_time(3, 1, 1, 1, true) = 4`. -/
theorem travel_time_formula_witness : travel_time 3 1 1 1 true = some 4 := by
  have h := travel_time_formula 3 1 1 1 true (by norm_num) (fun _ => ⟨one_pos, one_pos⟩)
  rw [h]
  norm_num

/-- C2: for a weight list `w_1..w_n` (`n ≥ 1`) and passenger count `P > 0`,
the occupancy model returns `S = Σᵢ [1 - (1 - pᵢ)^P]` and
`H = Σᵢ [1 - (Cᵢ - pᵢ)^P]` with `pᵢ = wᵢ / P` and `Cᵢ` the cumulative sum of
`p_1..p_i` (so `Cᵢ - pᵢ` is the prefix sum of the weights before floor `i`,
divided by `P`). -/
theorem occupancy_weighted_formula (ws : List ℝ) (P : ℤ) (hP : 0 < P)
    (h' : ws ≠ []) :
    expected_stops_and_highest ws P =
      some (∑ i ∈ Finset.range ws.length, (1 - (1 - ws.getD i 0 / (P : ℝ)) ^ P),
            ∑ i ∈ Finset.range ws.length, (1 - ((ws.take i).sum / (P : ℝ)) ^ P)) :=
  expected_eq ws P hP

/-- C2 witness: a single floor of weight 1 with one passenger gives
`(S, H) = (1, 1)`. -/
theorem occupancy_weighted_formula_witness :
    expected_stops_and_highest [(1 : ℝ)] 1 = some (1, 1) := by
  have h := occupancy_weighted_formula [(1 : ℝ)] 1 one_pos (by simp)
  simpa using h

/-- C8: on the uniform distribution `wᵢ = P/n` the weighted occupancy model
yields exactly the classical closed forms `S = n·(1 - (1 - 1/n)^P)` and
`H = n - Σ_{i=1}^{n-1} (i/n)^P`, through the general weighted code path
(`expected_stops_and_highest` has no special case for uniform input). -/
theorem occupancy_uniform_closed_form (n : ℕ) (P : ℤ) (hn : 1 ≤ n) (hP : 0 < P) :
    expected_stops_and_highest (List.replicate n ((P : ℝ) / (n : ℝ))) P =
      some ((n : ℝ) * (1 - (1 - 1 / (n : ℝ)) ^ P),
            (n : ℝ) - ∑ i ∈ Finset.range (n - 1), (((i : ℝ) + 1) / (n : ℝ)) ^ P) := by
  have hPR : ((P : ℝ)) ≠ 0 := Int.cast_ne_zero.mpr (by omega)
  have hdiv : ((P : ℝ) / (n : ℝ)) / (P : ℝ) = 1 / (n : ℝ) := by
    rw [div_div, mul_comm, ← div_div, div_self hPR]
  rw [expected_eq _ _ hP]
  rw [List.length_replicate]
  congr 2
  · have h1 : ∀ i ∈ Finset.range n,
        (1 - (1 - (List.replicate n ((P : ℝ) / (n : ℝ))).getD i 0 / (P : ℝ)) ^ P)
          = (1 - (1 - 1 / (n : ℝ)) ^ P) := by
      intro i hi
      have hi' : i < n := Finset.mem_range.mp hi
      rw [List.getD_eq_getElem _ _ (by simpa using hi'), List.getElem_replicate, hdiv]
    rw [Finset.sum_congr rfl h1, Finset.sum_const, Finset.card_range, nsmul_eq_mul]
  · have h2 : ∀ i ∈ Finset.range n,
        (1 - (((List.replicate n ((P : ℝ) / (n : ℝ))).take i).sum / (P : ℝ)) ^ P)
          = (1 - ((i : ℝ) / (n : ℝ)) ^ P) := by
      intro i hi
      have hi' : i < n := Finset.mem_range.mp hi
      rw [List.take_replicate, min_eq_left hi'.le, List.sum_replicate, nsmul_eq_mul,
        mul_div_assoc, hdiv, mul_one_div]
    rw [Finset.sum_congr rfl h2, Finset.sum_sub_distrib, Finset.sum_const,
      Finset.card_range, nsmul_eq_mul, mul_one]
    congr 1
    obtain ⟨m, rfl⟩ : ∃ m, n = m + 1 := ⟨n - 1, by omega⟩
    rw [Finset.sum_range_succ', Nat.add_sub_cancel]
    have hz : (((0 : ℕ) : ℝ) / ((m + 1 : ℕ) : ℝ)) ^ P = 0 := by
      rw [Nat.cast_zero, zero_div, zero_zpow P (by omega)]
    rw [hz, add_zero]
    exact Finset.sum_congr rfl fun i _ => by push_cast; ring_nf

/-- C8 witness: `n = 1`, `P = 1` gives `(S, H) = (1, 1)` in closed form. -/
theorem occupancy_uniform_closed_form_witness :
    expected_stops_and_highest (List.replicate 1 (((1 : ℤ) : ℝ) / ((1 : ℕ) : ℝ))) 1 =
      some ((((1 : ℕ)) : ℝ) * (1 - (1 - 1 / (((1 : ℕ)) : ℝ)) ^ (1 : ℤ)),
            (((1 : ℕ)) : ℝ)
              - ∑ i ∈ Finset.range (1 - 1), (((i : ℝ) + 1) / (((1 : ℕ)) : ℝ)) ^ (1 : ℤ)) :=
  occupancy_uniform_closed_form 1 1 le_rfl one_pos

/-- C10 (amended): for a weight list with nonnegative entries whose total is
at most `P`, and `P > 0`, the occupancy outputs are bounded:
`0 ≤ S ≤ n` and `0 ≤ H ≤ n` (each summand of `S` and of `H` lies in `[0,1]`).
The claim's weaker hypothesis — each weight individually at most `P` — does
not bound `H` below (see the counterexample). -/
theorem occupancy_outputs_bounded (ws : List ℝ) (P : ℤ) (s h : ℝ) (hP : 0 < P)
    (hnn : ∀ w ∈ ws, 0 ≤ w) (hsum : ws.sum ≤ (P : ℝ))
    (hsome : expected_stops_and_highest ws P = some (s, h)) :
    (0 ≤ s ∧ s ≤ (ws.length : ℝ)) ∧ (0 ≤ h ∧ h ≤ (ws.length : ℝ)) := by
  have hPR : (0 : ℝ) < (P : ℝ) := by exact_mod_cast hP
  rw [expected_eq ws P hP] at hsome
  have h2 := Option.some_inj.mp hsome
  rw [Prod.mk.injEq] at h2
  obtain ⟨hs', hh'⟩ := h2
  subst hs'
  subst hh'
  have hSterm : ∀ k ∈ Finset.range ws.length,
      0 ≤ 1 - (1 - ws.getD k 0 / (P : ℝ)) ^ P ∧
      1 - (1 - ws.getD k 0 / (P : ℝ)) ^ P ≤ 1 := by
    intro k hk
    have hk' : k < ws.length := Finset.mem_range.mp hk
    have hmem : ws.getD k 0 ∈ ws := by
      rw [List.getD_eq_getElem ws 0 hk']
      exact List.getElem_mem hk'
    have h0 := hnn _ hmem
    have h1 : ws.getD k 0 ≤ (P : ℝ) := (List.single_le_sum hnn _ hmem).trans hsum
    have hy0 : 0 ≤ 1 - ws.getD k 0 / (P : ℝ) := by
      have := (div_le_one hPR).mpr h1
      linarith
    have hy1 : 1 - ws.getD k 0 / (P : ℝ) ≤ 1 := by
      have := div_nonneg h0 hPR.le
      linarith
    obtain ⟨hz0, hz1⟩ := zpow_unit_interval _ P hP hy0 hy1
    constructor <;> linarith
  have hHterm : ∀ k ∈ Finset.range ws.length,
      0 ≤ 1 - ((ws.take k).sum / (P : ℝ)) ^ P ∧
      1 - ((ws.take k).sum / (P : ℝ)) ^ P ≤ 1 := by
    intro k _
    have h0 := take_sum_nonneg ws k hnn
    have h1 : (ws.take k).sum ≤ (P : ℝ) := (take_sum_le ws k hnn).trans hsum
    have hy0 : 0 ≤ (ws.take k).sum / (P : ℝ) := div_nonneg h0 hPR.le
    have hy1 : (ws.take k).sum / (P : ℝ) ≤ 1 := (div_le_one hPR).mpr h1
    obtain ⟨hz0, hz1⟩ := zpow_unit_interval _ P hP hy0 hy1
    constructor <;> linarith
  refine ⟨⟨Finset.sum_nonneg fun k hk => (hSterm k hk).1, ?_⟩,
          Finset.sum_nonneg fun k hk => (hHterm k hk).1, ?_⟩
  · have := Finset.sum_le_card_nsmul (Finset.range ws.length) _ 1
      fun k hk => (hSterm k hk).2
    simpa using this
  · have := Finset.sum_le_card_nsmul (Finset.range ws.length) _ 1
      fun k hk => (hHterm k hk).2
    simpa using this

/-- C10 counterexample: with `P = 1` and four floors of weight `1` (each
weight is nonnegative and at most `P`, as the claim requires), the code
returns `H = -2 < 0`: the claimed lower bound `0 ≤ H` fails. -/
theorem occupancy_H_negative_example :
    expected_stops_and_highest [(1 : ℝ), 1, 1, 1] 1 = some (4, -2) ∧ ((-2 : ℝ) < 0) := by
  constructor
  · simp [expected_stops_and_highest, sSum, hSum, ppow]
    norm_num
  · norm_num

/-- C10 witness: a single floor of weight 1, one passenger. -/
theorem occupancy_outputs_bounded_witness :
    ((0 : ℝ) ≤ 1 ∧ (1 : ℝ) ≤ (([(1 : ℝ)].length : ℕ) : ℝ)) ∧
    ((0 : ℝ) ≤ 1 ∧ (1 : ℝ) ≤ (([(1 : ℝ)].length : ℕ) : ℝ)) :=
  occupancy_outputs_bounded [(1 : ℝ)] 1 1 1 one_pos
    (by intro w hw; simp at hw; simp [hw]) (by norm_num)
    (by simp [expected_stops_and_highest, sSum, hSum, ppow])

/-- C1: whenever the engine runs with expected stops `S > 0`, the (pre-
presentation-rounding) round-trip time equals
`travel_t + (S+1)·door_cycle + 2·P·passenger_transfer_time`, where
`door_cycle = t_open + t_close + t_dwell` and `travel_t` is the travel-time
model applied to the distance `2·(H - zone_start_floor)·floor_height` with
the configured speed, acceleration and kinematic-mode flag. -/
theorem rtt_kinematic_formula (i : Inputs) (s h t : ℝ) (r : LTAResult)
    (hocc : expected_stops_and_highest i.pop_per_floor i.target_pop = some (s, h))
    (hs : 0 < s)
    (ht : travel_time (2 * (h - (i.zone_start_floor : ℝ)) * i.floor_height) i.speed
        i.acceleration i.jerk i.use_accel_model = some t)
    (hr : run_lta_raw i = some r) :
    r.RTT = t + (s + 1) * (i.t_open + i.t_close + i.t_dwell)
      + 2 * (i.target_pop : ℝ) * i.passenger_time := by
  obtain ⟨s', h', hocc', hcase⟩ := run_lta_raw_elim hr
  rw [hocc] at hocc'
  have he := Option.some_inj.mp hocc'
  rw [Prod.mk.injEq] at he
  obtain ⟨hs1, hh1⟩ := he
  subst hs1
  subst hh1
  rcases hcase with ⟨hs0, -⟩ | ⟨-, t', rtt, ht', hrtt, -, -, hr'⟩
  · exact absurd hs0 hs.ne'
  · rw [ht] at ht'
    have htt := Option.some_inj.mp ht'
    subst htt
    subst hrtt
    rw [hr']
    ring

/-- C1 witness: one floor of weight 1, one passenger, unit parameters,
`passenger_time = 0.5`, giving `RTT = 0 + 2·3 + 1 = 7`. -/
theorem rtt_kinematic_formula_witness :
    (LTAResult.mk 7 7 4.9 30000 300).RTT
      = 0 + ((1 : ℝ) + 1) * (1 + 1 + 1) + 2 * (((1 : ℤ)) : ℝ) * 0.5 := by
  have h := rtt_kinematic_formula ⟨1, 1, 1, 7, 1, 0.5, 1, 1, 1, 1, false, 1, 1, 1, [1]⟩
      1 1 0 ⟨7, 7, 4.9, 30000, 300⟩
      (by simp [expected_stops_and_highest, sSum, hSum, ppow])
      one_pos
      (by simp [travel_time])
      (by simp [run_lta_raw, expected_stops_and_highest, sSum, hSum, ppow, travel_time]
          norm_num)
  exact h

/-- C4 (amended): for every nondegenerate run (`S > 0`, `num_elevators ≥ 1`)
the raw derived metrics satisfy `Interval = RTT / num_elevators`,
`AWT = Interval · 0.7` (the waiting factor is hardcoded to `0.7`, not a
parameter), `HC_persons = car_capacity · 1.0 · num_elevators · 300 / Interval`
(no load-factor parameter; the effective load factor is fixed at `1.0`), and
`HC_percent = (HC_persons / target_population) · 100` when
`target_population > 0`, else `0`. -/
theorem metrics_formulas_fixed_factors (i : Inputs) (s h : ℝ) (r : LTAResult)
    (hocc : expected_stops_and_highest i.pop_per_floor i.target_pop = some (s, h))
    (hs : 0 < s) (hne : 1 ≤ i.num_elevators)
    (hr : run_lta_raw i = some r) :
    r.Interval = r.RTT / (i.num_elevators : ℝ) ∧
    r.AWT = r.Interval * 0.7 ∧
    r.HC_persons = i.car_capacity * 1.0 * (i.num_elevators : ℝ) * 300 / r.Interval ∧
    r.HC = (if 0 < i.target_pop then r.HC_persons / (i.target_pop : ℝ) * 100 else 0) := by
  obtain ⟨s', h', hocc', hcase⟩ := run_lta_raw_elim hr
  rw [hocc] at hocc'
  have he := Option.some_inj.mp hocc'
  rw [Prod.mk.injEq] at he
  obtain ⟨hs1, hh1⟩ := he
  subst hs1
  subst hh1
  rcases hcase with ⟨hs0, -⟩ | ⟨-, t', rtt, ht', hrtt, hne0, hint, hr'⟩
  · exact absurd hs0 hs.ne'
  · subst hr'
    refine ⟨rfl, rfl, ?_, ?_⟩
    · norm_num
    · by_cases hp : 0 < i.target_pop
      · rw [if_pos hp]
      · rw [if_neg hp]

/-- C4 counterexample: the claim requires the waiting factor to be a
caller-configurable parameter ranging over `[0.6, 0.8]`; in the code no run
can produce an AWT different from `Interval · 0.7` — the factor is hardcoded. -/
theorem awt_factor_hardcoded :
    ¬ ∃ (i : Inputs) (r : LTAResult), run_lta_raw i = some r ∧ r.AWT ≠ r.Interval * 0.7 := by
  rintro ⟨i, r, hr, hne⟩
  obtain ⟨s, h, -, hcase⟩ := run_lta_raw_elim hr
  rcases hcase with ⟨-, rfl⟩ | ⟨-, t, rtt, -, -, -, -, rfl⟩
  · exact hne (by norm_num)
  · exact hne rfl

/-- C4 witness: the nondegenerate example used for C1. -/
theorem metrics_formulas_fixed_factors_witness :
    (LTAResult.mk 7 7 4.9 30000 300).Interval
        = (LTAResult.mk 7 7 4.9 30000 300).RTT / (((1 : ℤ)) : ℝ) ∧
    (LTAResult.mk 7 7 4.9 30000 300).AWT = (LTAResult.mk 7 7 4.9 30000 300).Interval * 0.7 ∧
    (LTAResult.mk 7 7 4.9 30000 300).HC_persons
        = (7 : ℝ) * 1.0 * (((1 : ℤ)) : ℝ) * 300 / (LTAResult.mk 7 7 4.9 30000 300).Interval ∧
    (LTAResult.mk 7 7 4.9 30000 300).HC
        = (if 0 < (1 : ℤ) then
            (LTAResult.mk 7 7 4.9 30000 300).HC_persons / (((1 : ℤ)) : ℝ) * 100
          else 0) := by
  have h := metrics_formulas_fixed_factors ⟨1, 1, 1, 7, 1, 0.5, 1, 1, 1, 1, false, 1, 1, 1, [1]⟩
      1 1 ⟨7, 7, 4.9, 30000, 300⟩
      (by simp [expected_stops_and_highest, sSum, hSum, ppow])
      one_pos le_rfl
      (by simp [run_lta_raw, expected_stops_and_highest, sSum, hSum, ppow, travel_time]
          norm_num)
  exact h

/-- C5: evaluation at the failing input `target_pop = -1`, one floor of
weight 1.  The engine does not return the all-zero record: it raises
`ZeroDivisionError` (`0.0 ** -1` in the highest-reversal loop), modelled as
`none`. -/
theorem negative_population_raises :
    run_lta_logic ⟨-1, 1, 1, 1, 1, 1, 1, 1, 1, 1, false, 1, 1, 1, [1]⟩ = none := by
  simp [run_lta_logic, run_lta_raw, expected_stops_and_highest, sSum, hSum, ppow]

/-- C6: evaluation at the failing input `num_elevators = -1` with a
nondegenerate population.  The engine completes and returns metrics (with a
negative Interval) instead of failing with an `InvalidParameter` condition. -/
theorem negative_elevator_count_completes :
    run_lta_logic ⟨1, 1, 1, 7, 1, 0.5, 1, 1, 1, 1, false, 1, 1, -1, [1]⟩ =
      some ⟨7, -7, -4.9, 30000, 300⟩ ∧ ((-7 : ℝ) < 0) := by
  constructor
  · have hraw : run_lta_raw ⟨1, 1, 1, 7, 1, 0.5, 1, 1, 1, 1, false, 1, 1, -1, [1]⟩ =
        some ⟨7, -7, -4.9, 30000, 300⟩ := by
      simp [run_lta_raw, expected_stops_and_highest, sSum, hSum, ppow, travel_time]
      norm_num
    rw [run_lta_logic, hraw]
    simp only [Option.map_some']
    rw [round2_of_mul_eq 7 700 (by norm_num), round2_of_mul_eq (-7) (-700) (by norm_num),
      round2_of_mul_eq (-4.9) (-490) (by norm_num),
      round2_of_mul_eq 30000 3000000 (by norm_num),
      round2_of_mul_eq 300 30000 (by norm_num)]
  · norm_num

/-- C7: the legacy round-trip formula variant (modelled from the spec, being
absent from src/app.py), applied to the occupancy outputs `(S, H)` of the
code, equals `2·H·(floor_height/v) + (S+1)·door_cycle + 2·P·load_time +
2·express_jump` with `door_cycle = t_open + t_close + t_dwell + t_load +
t_unload`. -/
theorem legacy_rtt_formula (i : Inputs) (s h : ℝ)
    (hocc : expected_stops_and_highest i.pop_per_floor i.target_pop = some (s, h))
    (t_load t_unload load_time express_jump : ℝ) :
    legacy_rtt h s i.floor_height i.speed i.t_open i.t_close i.t_dwell t_load t_unload
        i.target_pop load_time express_jump =
      2 * h * (i.floor_height / i.speed)
        + (s + 1) * (i.t_open + i.t_close + i.t_dwell + t_load + t_unload)
        + 2 * (i.target_pop : ℝ) * load_time + 2 * express_jump := by
  unfold legacy_rtt legacy_door_cycle
  ring

/-- C7 witness: the legacy formula evaluated at the occupancy outputs
`(S, H) = (1, 1)` of the one-floor example with unit timings. -/
theorem legacy_rtt_formula_witness :
    legacy_rtt 1 1 1 1 1 1 1 1 1 1 1 1 =
      2 * 1 * ((1 : ℝ) / 1) + ((1 : ℝ) + 1) * (1 + 1 + 1 + 1 + 1)
        + 2 * (((1 : ℤ)) : ℝ) * 1 + 2 * 1 := by
  have h := legacy_rtt_formula ⟨1, 1, 1, 7, 1, 0.5, 1, 1, 1, 1, false, 1, 1, 1, [1]⟩ 1 1
      (by simp [expected_stops_and_highest, sSum, hSum, ppow]) 1 1 1 1
  exact h

/-- C9 (amended): holding all other inputs fixed, for a population
distribution whose weights lie in `[0, P]` (the data-model invariant, under
which the expected number of stops is nonnegative), increasing any single
door-cycle component — stated componentwise: `t_open ≤ a`, `t_dwell ≤ b`,
`t_close ≤ c` — never decreases the returned RTT.  Increasing `P` alone can
decrease the RTT (see the counterexample). -/
theorem rtt_monotone_door_cycle (i : Inputs) (a b c : ℝ) (r r' : LTAResult)
    (hw : ∀ w ∈ i.pop_per_floor, 0 ≤ w ∧ w ≤ (i.target_pop : ℝ))
    (ha : i.t_open ≤ a) (hb : i.t_dwell ≤ b) (hc : i.t_close ≤ c)
    (h1 : run_lta_logic i = some r)
    (h2 : run_lta_logic { i with t_open := a, t_dwell := b, t_close := c } = some r') :
    r.RTT ≤ r'.RTT := by
  rw [run_lta_logic] at h1 h2
  rcases Option.map_eq_some'.mp h1 with ⟨r0, hr0, hr0e⟩
  rcases Option.map_eq_some'.mp h2 with ⟨r1, hr1, hr1e⟩
  have hRTT : r.RTT = round2 r0.RTT := by rw [← hr0e]
  have hRTT' : r'.RTT = round2 r1.RTT := by rw [← hr1e]
  rw [hRTT, hRTT']
  refine round2_mono ?_
  obtain ⟨s, h, hocc, hcase⟩ := run_lta_raw_elim hr0
  obtain ⟨s', h', hocc', hcase'⟩ := run_lta_raw_elim hr1
  dsimp only at hocc' hcase'
  rw [hocc] at hocc'
  have he := Option.some_inj.mp hocc'
  rw [Prod.mk.injEq] at he
  obtain ⟨hs1, hh1⟩ := he
  subst hs1
  subst hh1
  rcases hcase with ⟨hs0, hre⟩ | ⟨hsne, t, rtt, ht, hrtt, hne0, hint, hre⟩
  · rcases hcase' with ⟨hs0', hre'⟩ | ⟨hsne', _, _, _, _, _, _, _⟩
    · rw [hre, hre']
    · exact absurd hs0 hsne'
  · rcases hcase' with ⟨hs0', _⟩ | ⟨hsne', t', rtt', ht', hrtt', hne0', hint', hre'⟩
    · exact absurd hs0' hsne
    · rw [ht] at ht'
      have htt := Option.some_inj.mp ht'
      subst htt
      have hsnn : 0 ≤ s := s_nonneg_of_weights hocc hsne hw
      subst hrtt
      subst hrtt'
      rw [hre, hre']
      dsimp only
      have hdc : i.t_open + i.t_dwell + i.t_close ≤ a + b + c := by linarith
      have hsp : (0 : ℝ) ≤ s + 1 := by linarith
      nlinarith [mul_le_mul_of_nonneg_left hdc hsp]

/-- C9 counterexample: with the per-floor weights held fixed at `[1]` and
every other input unchanged, raising the passenger count from `1` to `2`
lowers the returned RTT from `8` to `7` (the expected number of stops drops
from `1` to `0.75` and the saved door cycles outweigh the added transfer
time, which is `0` here). -/
theorem rtt_population_not_monotone :
    run_lta_logic ⟨1, 1, 1, 7, 1, 0, 2, 1, 1, 1, false, 1, 1, 1, [1]⟩ =
      some ⟨8, 8, 5.6, 26250, 262.5⟩ ∧
    run_lta_logic ⟨2, 1, 1, 7, 1, 0, 2, 1, 1, 1, false, 1, 1, 1, [1]⟩ =
      some ⟨7, 7, 4.9, 15000, 300⟩ ∧
    ((7 : ℝ) < 8) := by
  refine ⟨?_, ?_, by norm_num⟩
  · have hraw : run_lta_raw ⟨1, 1, 1, 7, 1, 0, 2, 1, 1, 1, false, 1, 1, 1, [1]⟩ =
        some ⟨8, 8, 5.6, 26250, 262.5⟩ := by
      simp [run_lta_raw, expected_stops_and_highest, sSum, hSum, ppow, travel_time]
      norm_num
    rw [run_lta_logic, hraw]
    simp only [Option.map_some']
    rw [round2_of_mul_eq 8 800 (by norm_num), round2_of_mul_eq 5.6 560 (by norm_num),
      round2_of_mul_eq 26250 2625000 (by norm_num),
      round2_of_mul_eq 262.5 26250 (by norm_num)]
  · have hraw : run_lta_raw ⟨2, 1, 1, 7, 1, 0, 2, 1, 1, 1, false, 1, 1, 1, [1]⟩ =
        some ⟨7, 7, 4.9, 15000, 300⟩ := by
      simp [run_lta_raw, expected_stops_and_highest, sSum, hSum, ppow, travel_time]
      norm_num
    rw [run_lta_logic, hraw]
    simp only [Option.map_some']
    rw [round2_of_mul_eq 7 700 (by norm_num), round2_of_mul_eq 4.9 490 (by norm_num),
      round2_of_mul_eq 15000 1500000 (by norm_num),
      round2_of_mul_eq 300 30000 (by norm_num)]

/-- C9 witness: raising `t_open` from `2` to `3` raises the returned RTT
from `8` to `10`. -/
theorem rtt_monotone_door_cycle_witness :
    (LTAResult.mk 8 8 5.6 26250 262.5).RTT ≤ (LTAResult.mk 10 10 7 21000 210).RTT := by
  have hmain := rtt_monotone_door_cycle ⟨1, 1, 1, 7, 1, 0, 2, 1, 1, 1, false, 1, 1, 1, [1]⟩
      3 1 1 ⟨8, 8, 5.6, 26250, 262.5⟩ ⟨10, 10, 7, 21000, 210⟩
      (by intro w hw; simp at hw; subst hw; norm_num)
      (by norm_num) (by norm_num) (by norm_num)
      (by
        have hraw : run_lta_raw ⟨1, 1, 1, 7, 1, 0, 2, 1, 1, 1, false, 1, 1, 1, [1]⟩ =
            some ⟨8, 8, 5.6, 26250, 262.5⟩ := by
          simp [run_lta_raw, expected_stops_and_highest, sSum, hSum, ppow, travel_time]
          norm_num
        rw [run_lta_logic, hraw]
        simp only [Option.map_some']
        rw [round2_of_mul_eq 8 800 (by norm_num), round2_of_mul_eq 5.6 560 (by norm_num),
          round2_of_mul_eq 26250 2625000 (by norm_num),
          round2_of_mul_eq 262.5 26250 (by norm_num)])
      (by
        have hraw : run_lta_raw ⟨1, 1, 1, 7, 1, 0, 3, 1, 1, 1, false, 1, 1, 1, [1]⟩ =
            some ⟨10, 10, 7, 21000, 210⟩ := by
          simp [run_lta_raw, expected_stops_and_highest, sSum, hSum, ppow, travel_time]
          norm_num
        show run_lta_logic ⟨1, 1, 1, 7, 1, 0, 3, 1, 1, 1, false, 1, 1, 1, [1]⟩ =
          some ⟨10, 10, 7, 21000, 210⟩
        rw [run_lta_logic, hraw]
        simp only [Option.map_some']
        rw [round2_of_mul_eq 10 1000 (by norm_num), round2_of_mul_eq 7 700 (by norm_num),
          round2_of_mul_eq 21000 2100000 (by norm_num),
          round2_of_mul_eq 210 21000 (by norm_num)])
  exact hmain

end
